import Mathlib

/-!
# The IPC message header template

A verification development for `firmware/lib/ipc/templates/ipc_messages.jinja.h`,
the Jinja template that turns a schema (include paths, message structs, protocol
names, a port name) into a C header with one record type per struct and one
enumeration of message tags.

The template is embedded line by line: `render` instantiates every template line,
`forLoop` is the `{% for %} ... {% endfor %}` block, and the three tag expressions
(`structTag`, `protoTag`, `sentinelTag`) are the three `{{ ... }}` expressions of the
enumeration.  The Python string methods the expressions call (`upper`, slicing,
`split`, `join`) are embedded with their Python meaning.
-/

namespace IpcMessages

/-! ## Schema (the template's variables) -/

/-- One entry of `messages.structs`: `struct.name` and `struct.fields`. -/
structure Struct where
  name : String
  fields : List String
  deriving DecidableEq, Repr

/-- One entry of `messages.protos`: `proto.name`. -/
structure Proto where
  name : String
  deriving DecidableEq, Repr

/-- The `messages` variable: `messages.structs` and `messages.protos`. -/
structure Messages where
  structs : List Struct
  protos : List Proto
  deriving DecidableEq, Repr

/-- All variables the template reads. -/
structure Schema where
  proto_headers : List String
  messages : Messages
  port_name : String
  deriving DecidableEq, Repr

/-! ## Rendering environment

Two things the template relies on live outside the template file: the Unicode
upper-case table behind Python's `str.upper()`, and the `trim_blocks` switch of the
Jinja environment that renders the template.  Both are parameters here. -/

/-- The per-character upper-case mapping of `str.upper()`.  Python upper-cases a string
character by character; one character may become several (`ß` becomes `SS`).  The
fields record what the development uses of that table: no character is mapped to
nothing, ASCII characters are mapped as ASCII upper-casing does, and an underscore
only ever comes from an underscore. -/
structure CaseMap where
  toUpper : Char → List Char
  toUpper_ne_nil : ∀ c, toUpper c ≠ []
  toUpper_ascii : ∀ c : Char, c.toNat < 128 → toUpper c = [c.toUpper]
  underscore_of_mem : ∀ c, '_' ∈ toUpper c → c = '_'

/-- The environment a template is rendered in. -/
structure Env where
  caseMap : CaseMap
  trim_blocks : Bool

/-! ## Python string methods used by the template -/

/-- Python `s.upper()`. -/
def upper (env : Env) (s : String) : String :=
  ⟨s.data.flatMap env.caseMap.toUpper⟩

/-- Python `s[:-2]`: all but the last two characters, the empty string when `s` has
fewer than two. -/
def dropLast2 (s : String) : String :=
  ⟨s.data.take (s.data.length - 2)⟩

/-- Python `s.split(sep)` on a list of characters, for a one-character separator:
the pieces between the separators, of which there is always at least one. -/
def splitChars (sep : Char) : List Char → List (List Char)
  | [] => [[]]
  | c :: cs =>
    if c = sep then [] :: splitChars sep cs
    else
      match splitChars sep cs with
      | [] => [[c]]
      | t :: ts => (c :: t) :: ts

/-- Python `s.split(sep)` for a one-character separator. -/
def split (s : String) (sep : Char) : List String :=
  (splitChars sep s.data).map String.mk

/-- Python `sep.join(xs)`. -/
def join (sep : String) : List String → String
  | [] => ""
  | [x] => x
  | x :: y :: ys => x ++ sep ++ join sep (y :: ys)

/-! ## The tag expressions of the enumeration -/

/-- Template line 22: `IPC_{{struct.name.upper()[:-2]}}`. -/
def structTag (env : Env) (st : Struct) : String :=
  "IPC_" ++ dropLast2 (upper env st.name)

/-- The expression `'_'.join(proto.name.upper().split('_')[1:])` of template line 25. -/
def protoTail (env : Env) (p : Proto) : String :=
  join "_" ((split (upper env p.name) '_').drop 1)

/-- Template line 25: `IPC_PROTO_{{'_'.join(proto.name.upper().split('_')[1:])}}`. -/
def protoTag (env : Env) (p : Proto) : String :=
  "IPC_PROTO_" ++ protoTail env p

/-- Template line 27: `IPC_{{port_name.upper()}}_END`. -/
def sentinelTag (env : Env) (s : Schema) : String :=
  "IPC_" ++ upper env s.port_name ++ "_END"

/-- Template line 28: the name in `} ipc_{{port_name}}_msg_t;`. -/
def enumTypeName (s : Schema) : String :=
  "ipc_" ++ s.port_name ++ "_msg_t"

/-! ## The template -/

/-- What the line of a block tag (`{% for ... %}`, `{% endfor %}`) leaves in the output:
nothing when the environment trims blocks, an empty line otherwise. -/
def blockTag (env : Env) : List String :=
  if env.trim_blocks then [] else [""]

/-- A `{% for x in xs %}` ... `{% endfor %}` block whose tags stand on lines of their
own: each iteration renders the `for` line and the body, then the `endfor` line is
rendered once. -/
def forLoop {α : Type} (env : Env) (xs : List α) (body : α → List String) : List String :=
  xs.flatMap (fun x => blockTag env ++ body x) ++ blockTag env

/-- Template lines 13 to 18: the body of the loop over `messages.structs`. -/
def structBlock (env : Env) (st : Struct) : List String :=
  ["typedef struct \x7b"]
    ++ forLoop env st.fields (fun field => ["  " ++ field ++ ";"])
    ++ ["\x7d " ++ st.name ++ ";", ""]

/-- The template, rendered line by line (template lines 1 to 28). -/
def render (env : Env) (s : Schema) : List String :=
  ["#pragma once", "", "// Autogenerated - do not modify", ""]
    ++ forLoop env s.proto_headers (fun hdr => ["#include \"" ++ hdr ++ "\""])
    ++ ["#include <stdint.h>", "", "typedef uint32_t ipc_port_t;", ""]
    ++ forLoop env s.messages.structs (structBlock env)
    ++ ["typedef enum \x7b"]
    ++ forLoop env s.messages.structs (fun struct => ["  " ++ structTag env struct ++ ","])
    ++ forLoop env s.messages.protos (fun proto => ["  " ++ protoTag env proto ++ ","])
    ++ ["  " ++ sentinelTag env s ++ ",", "\x7d " ++ enumTypeName s ++ ";"]

/-- The error kinds the specification names.  The template has no construct that
raises either of them. -/
inductive GenError where
  | SchemaError
  | ValidationError
  deriving DecidableEq, Repr

/-- Rendering the template on a schema: the header, line by line.  The template
consists of text, loops and string expressions only, so rendering returns normally
for every schema. -/
def generate (env : Env) (s : Schema) : Except GenError (List String) :=
  Except.ok (render env s)

/-- The header as one text: the rendered lines separated by newlines (the last
template line has no newline after it). -/
def headerText (out : List String) : String :=
  join "\n" out

/-! ## Reading a rendered header -/

/-- The line that opens the enumeration. -/
def enumOpen : String := "typedef enum \x7b"

/-- The lines after the line that opens the enumeration. -/
def enumSection (out : List String) : List String :=
  (out.dropWhile (fun l => decide (l ≠ enumOpen))).drop 1

/-- The lines before the line that opens the enumeration. -/
def recordSection (out : List String) : List String :=
  out.takeWhile (fun l => decide (l ≠ enumOpen))

/-- What stands between the two characters `a b` and the final character `z` of a
line of that shape. -/
def between (a b z : Char) (l : String) : Option String :=
  if l.data.take 2 = [a, b] ∧ l.data.getLast? = some z then
    some ⟨(l.data.drop 2).dropLast⟩
  else none

/-- The member named by an enumeration line `  NAME,`. -/
def memberOfLine (l : String) : Option String := between ' ' ' ' ',' l

/-- The type named by a closing line `} NAME;`. -/
def typeOfLine (l : String) : Option String := between '\x7d' ' ' ';' l

/-- Whether a line starts with a closing brace. -/
def isClose (l : String) : Bool := decide (l.data.head? = some '\x7d')

/-- The members of the emitted enumeration, in output order: the member lines between
the opening line of the enumeration and its closing line. -/
def enumMembers (out : List String) : List String :=
  ((enumSection out).takeWhile (fun l => !isClose l)).filterMap memberOfLine

/-- The name of the emitted enumeration type, from its closing line. -/
def emittedEnumName (out : List String) : Option String :=
  (((enumSection out).dropWhile (fun l => !isClose l)).head?).bind typeOfLine

/-- The names of the emitted record types, in output order. -/
def structTypeNames (out : List String) : List String :=
  (recordSection out).filterMap typeOfLine

/-! ## A concrete environment and concrete schemas -/

/-- The case table restricted to ASCII behaviour: ASCII letters are upper-cased, every
other character is left alone. -/
def asciiCaseMap : CaseMap where
  toUpper c := [c.toUpper]
  toUpper_ne_nil _ := by simp
  toUpper_ascii _ _ := rfl
  underscore_of_mem c h := by
    have h := (List.mem_singleton.mp h).symm
    unfold Char.toUpper at h
    simp only at h
    split at h
    · rename_i hr
      exfalso
      obtain ⟨h1, h2⟩ := hr
      have hc : c = Char.ofNat c.toNat := (Char.ofNat_toNat c).symm
      generalize c.toNat = n at h h1 h2 hc
      interval_cases n <;> exact absurd h (by decide)
    · exact h

/-- The Jinja defaults (`trim_blocks` off) with the ASCII case table. -/
def defaultEnv : Env := ⟨asciiCaseMap, false⟩

/-- An environment that trims blocks. -/
def trimEnv : Env := ⟨asciiCaseMap, true⟩

/-- The schema of the specification's example. -/
def fooSchema : Schema :=
  ⟨[], ⟨[⟨"FooMsg", ["int32_t x;"]⟩], []⟩, "svc"⟩

/-- Two structs whose names differ only in their last two characters. -/
def twinSchema : Schema :=
  ⟨[], ⟨[⟨"FooAa", []⟩, ⟨"FooBb", []⟩], []⟩, "svc"⟩

/-- A struct with a one-character name. -/
def shortSchema : Schema :=
  ⟨[], ⟨[⟨"A", []⟩], []⟩, "svc"⟩

/-- A struct whose name is used up by the slice, and two protos without underscore. -/
def bareSchema : Schema :=
  ⟨[], ⟨[⟨"Ab", []⟩], [⟨"foo"⟩, ⟨"bar"⟩]⟩, "svc"⟩

/-- A struct and a proto with a three-token name. -/
def protoSchema : Schema :=
  ⟨["wifi.pb.h"], ⟨[⟨"FooMsg", ["int32_t x"]⟩], [⟨"foo_bar_baz"⟩]⟩, "svc"⟩

/-- No structs and no protos. -/
def emptySchema : Schema :=
  ⟨["wifi.pb.h"], ⟨[], []⟩, "svc"⟩

/-! ## Parts of a string, for stating what a tag is made of -/

/-- The string without its last two characters, one character at a time. -/
def withoutLastTwo (s : String) : String :=
  ⟨s.data.dropLast.dropLast⟩

/-- The last two characters of a string. -/
def lastTwo (s : String) : String :=
  ⟨s.data.drop (s.length - 2)⟩

/-- The string without its first `n` characters. -/
def withoutFirst (n : Nat) (s : String) : String :=
  ⟨s.data.drop n⟩

/-! ## Properties of schemas -/

/-- The derived tags of a schema: one per struct, then one per proto. -/
def derivedTags (env : Env) (s : Schema) : List String :=
  s.messages.structs.map (structTag env) ++ s.messages.protos.map (protoTag env)

/-- The uniqueness invariant of the data model: struct names and proto names are pairwise
distinct across the schema, and the sentinel is none of the derived tags. -/
def uniqueNames (env : Env) (s : Schema) : Prop :=
  (s.messages.structs.map Struct.name ++ s.messages.protos.map Proto.name).Nodup
    ∧ sentinelTag env s ∉ derivedTags env s

instance (env : Env) (s : Schema) : Decidable (uniqueNames env s) := by
  unfold uniqueNames; infer_instance

/-- What each derived tag carries after the common `IPC_`: the upper-cased struct name
without its last two characters, and `PROTO_` followed by the proto expression. -/
def tagStems (env : Env) (s : Schema) : List String :=
  s.messages.structs.map (fun st => dropLast2 (upper env st.name))
    ++ s.messages.protos.map (fun p => "PROTO_" ++ protoTail env p)

/-- The condition under which the specification announces a `SchemaError`: some derived
tag has nothing after its fixed literal, or two of the tags (struct tags, proto tags,
sentinel) are equal. -/
def schemaDefect (env : Env) (s : Schema) : Prop :=
  (∃ st ∈ s.messages.structs, dropLast2 (upper env st.name) = "")
    ∨ (∃ p ∈ s.messages.protos, protoTail env p = "")
    ∨ ¬ (derivedTags env s ++ [sentinelTag env s]).Nodup

instance (env : Env) (s : Schema) : Decidable (schemaDefect env s) := by
  unfold schemaDefect; infer_instance

/-! ## Reading the include directives -/

/-- Whether a line is an include directive: it starts with `#include `. -/
def isInclude (l : String) : Bool :=
  decide (l.data.take 9 = "#include ".data)

/-- Template line 10: the port type alias. -/
def portTypedef : String := "typedef uint32_t ipc_port_t;"

/-- The include directives of a header, in output order. -/
def includeDirectives (out : List String) : List String :=
  out.filter isInclude

/-- The include directives of a header together with the port type alias, in output
order. -/
def includesAndPortType (out : List String) : List String :=
  out.filter (fun l => isInclude l || decide (l = portTypedef))

/-! ## Reading the records -/

/-- The line that opens a record. -/
def structOpen : String := "typedef struct \x7b"

/-- The declaration on an indented line: the line without its two leading spaces. -/
def declOfLine (l : String) : Option String :=
  if l.data.take 2 = [' ', ' '] then some ⟨l.data.drop 2⟩ else none

/-- Reads records off header lines: an opening line starts a record, the indented lines
after it are its field declarations, a closing line names the record and ends it.  A
record is returned as its type name with its field declarations. -/
def readRecords : List String → List String → List Struct
  | [], _ => []
  | l :: ls, acc =>
    if l = structOpen then readRecords ls []
    else
      match typeOfLine l with
      | some name => ⟨name, acc⟩ :: readRecords ls []
      | none =>
        match declOfLine l with
        | some d => readRecords ls (acc ++ [d])
        | none => readRecords ls acc

/-- The records of a header, in output order. -/
def records (out : List String) : List Struct :=
  readRecords (recordSection out) []

/-- What the template makes of a struct: the name as it is, every field string followed
by the semicolon of template line 15. -/
def emittedRecord (st : Struct) : Struct :=
  ⟨st.name, st.fields.map (fun field => field ++ ";")⟩

/-! ## The text after the first separator -/

/-- What follows the first `sep` in a list of characters; nothing when there is none. -/
def afterFirst (sep : Char) (l : List Char) : List Char :=
  (l.dropWhile (fun c => decide (c ≠ sep))).drop 1

/-- What follows the first underscore of a string; the empty string when there is
none. -/
def afterFirstUnderscore (s : String) : String :=
  ⟨afterFirst '_' s.data⟩

/-! ## A case table with an expanding character -/

/-- The ASCII case table together with the one entry `ß` to `SS` of Python's table
(`'ß'.upper()` is `'SS'`). -/
def sharpCaseMap : CaseMap where
  toUpper c := if c = 'ß' then ['S', 'S'] else [c.toUpper]
  toUpper_ne_nil c := by
    show (if c = 'ß' then ['S', 'S'] else [c.toUpper]) ≠ []
    split <;> simp
  toUpper_ascii c h := by
    have hc : c ≠ 'ß' := by
      rintro rfl
      exact absurd h (by decide)
    simp [hc]
  underscore_of_mem c h := by
    have h : '_' ∈ (if c = 'ß' then ['S', 'S'] else [c.toUpper]) := h
    split at h
    · exact absurd h (by decide)
    · exact asciiCaseMap.underscore_of_mem c h

/-- The Jinja defaults with the case table `sharpCaseMap`. -/
def sharpEnv : Env := ⟨sharpCaseMap, false⟩

/-- A struct with the two-character name `ßß`. -/
def sharpSchema : Schema :=
  ⟨[], ⟨[⟨"ßß", []⟩], []⟩, "svc"⟩

/-! ## The naming convention behind the tag rules -/

/-- A struct whose tag is the sentinel of its port. -/
def authSchema : Schema :=
  ⟨[], ⟨[⟨"auth_end_t", []⟩], []⟩, "auth"⟩

/-- Two structs named with the suffix `_t` and two protos named under the first token
`fwpb`. -/
def conventionSchema : Schema :=
  ⟨["wallet.pb.h"],
    ⟨[⟨"auth_cmd_t", ["uint32_t id"]⟩, ⟨"auth_rsp_t", ["uint32_t status"]⟩],
      [⟨"fwpb_wallet_cmd"⟩, ⟨"fwpb_wallet_rsp"⟩]⟩,
    "auth"⟩

/-- The first underscore-separated token of a string. -/
def firstToken (s : String) : String :=
  ⟨s.data.takeWhile (fun c => decide (c ≠ '_'))⟩

/-- The naming convention the two slicing rules presuppose, for a suffix `suf` and a
first token `tok`: every struct name ends in `suf`, which is two characters long once
upper-cased; every proto name contains an underscore and starts with the token `tok`;
struct names are pairwise distinct after upper-casing, and so are proto names; and no
upper-cased struct name starts with `PROTO_`. -/
def namingConvention (env : Env) (s : Schema) (suf tok : String) : Prop :=
  (upper env suf).length = 2
    ∧ (∀ st ∈ s.messages.structs, lastTwo st.name = suf)
    ∧ (∀ p ∈ s.messages.protos, '_' ∈ p.name.data ∧ firstToken p.name = tok)
    ∧ (s.messages.structs.map (fun st => upper env st.name)).Nodup
    ∧ (s.messages.protos.map (fun p => upper env p.name)).Nodup
    ∧ (∀ st ∈ s.messages.structs, (upper env st.name).data.take 6 ≠ "PROTO_".data)

instance (env : Env) (s : Schema) (suf tok : String) :
    Decidable (namingConvention env s suf tok) := by
  unfold namingConvention; infer_instance

/-! ## Lists: scanning up to the first line that stops the scan -/

theorem takeWhile_stop {α : Type} (p : α → Bool) (l r : List α) (y : α)
    (hl : ∀ x ∈ l, p x = true) (hy : p y = false) :
    (l ++ y :: r).takeWhile p = l := by
  induction l with
  | nil => simp [List.takeWhile, hy]
  | cons a l ih =>
    have ha : p a = true := hl a (List.mem_cons_self a l)
    have hl2 : ∀ x ∈ l, p x = true := fun x hx => hl x (List.mem_cons_of_mem a hx)
    simp [List.takeWhile, ha, ih hl2]

theorem dropWhile_stop {α : Type} (p : α → Bool) (l r : List α) (y : α)
    (hl : ∀ x ∈ l, p x = true) (hy : p y = false) :
    (l ++ y :: r).dropWhile p = y :: r := by
  induction l with
  | nil => simp [List.dropWhile, hy]
  | cons a l ih =>
    have ha : p a = true := hl a (List.mem_cons_self a l)
    have hl2 : ∀ x ∈ l, p x = true := fun x hx => hl x (List.mem_cons_of_mem a hx)
    simp [List.dropWhile, ha, ih hl2]

/-! ## Loops -/

theorem mem_forLoop {α : Type} (env : Env) (xs : List α) (body : α → List String)
    (l : String) (h : l ∈ forLoop env xs body) :
    l = "" ∨ ∃ x ∈ xs, l ∈ body x := by
  unfold forLoop blockTag at h
  simp only [List.mem_append, List.mem_flatMap] at h
  rcases h with ⟨x, hx, h | h⟩ | h
  · left; split at h <;> simp_all
  · right; exact ⟨x, hx, h⟩
  · left; split at h <;> simp_all

theorem filterMap_forLoop {α : Type} (env : Env) (xs : List α) (body : α → List String)
    (f : String → Option String) (hf : f "" = none) :
    (forLoop env xs body).filterMap f = xs.flatMap (fun x => (body x).filterMap f) := by
  have hb : (blockTag env).filterMap f = [] := by
    unfold blockTag; split <;> simp [hf]
  unfold forLoop
  induction xs with
  | nil => simpa using hb
  | cons x xs ih =>
    simp only [List.flatMap_cons, List.append_assoc, List.filterMap_append, hb,
      List.nil_append] at ih ⊢
    rw [ih]

theorem flatMap_singleton_map {α β : Type} (xs : List α) (g : α → β) :
    xs.flatMap (fun x => [g x]) = xs.map g := by
  induction xs with
  | nil => rfl
  | cons x xs ih => simp [List.flatMap_cons, ih]

/-! ## Lines -/

theorem getLast_wrap (b z : Char) (t : List Char) : (b :: (t ++ [z])).getLast? = some z := by
  have h : b :: (t ++ [z]) = (b :: t) ++ [z] := rfl
  rw [h, List.getLast?_concat]

theorem between_wrap (a b z : Char) (t : String) :
    between a b z (String.mk [a, b] ++ t ++ String.mk [z]) = some t := by
  unfold between
  simp [String.data_append, getLast_wrap]

theorem between_of_head (a b z : Char) (l : String) (h : l.data.head? ≠ some a) :
    between a b z l = none := by
  unfold between
  rw [if_neg]
  rintro ⟨h2, -⟩
  apply h
  cases hl : l.data with
  | nil => simp [hl] at h2
  | cons c cs =>
    rw [hl] at h2
    cases cs <;> simp_all

theorem ne_enumOpen_of_head (l : String) (h : l.data.head? ≠ some 't') : l ≠ enumOpen := by
  rintro rfl
  exact h rfl

theorem memberOfLine_member (t : String) : memberOfLine ("  " ++ t ++ ",") = some t :=
  between_wrap ' ' ' ' ',' t

theorem typeOfLine_close (t : String) : typeOfLine ("\x7d " ++ t ++ ";") = some t :=
  between_wrap '\x7d' ' ' ';' t

theorem head_member (t : String) : ("  " ++ t ++ ",").data.head? = some ' ' := by
  simp [String.data_append]

theorem head_field (t : String) : ("  " ++ t ++ ";").data.head? = some ' ' := by
  simp [String.data_append]

theorem head_close (t : String) : ("\x7d " ++ t ++ ";").data.head? = some '\x7d' := by
  simp [String.data_append]

theorem head_include (t : String) : ("#include \"" ++ t ++ "\"").data.head? = some '#' := by
  simp [String.data_append]

/-! ## The two sections of the rendered header -/

/-- The lines rendered before the opening line of the enumeration (template lines 1 to 19). -/
theorem render_split (env : Env) (s : Schema) :
    render env s =
      (["#pragma once", "", "// Autogenerated - do not modify", ""]
        ++ forLoop env s.proto_headers (fun hdr => ["#include \"" ++ hdr ++ "\""])
        ++ ["#include <stdint.h>", "", "typedef uint32_t ipc_port_t;", ""]
        ++ forLoop env s.messages.structs (structBlock env))
      ++ enumOpen ::
        (forLoop env s.messages.structs (fun struct => ["  " ++ structTag env struct ++ ","])
          ++ forLoop env s.messages.protos (fun proto => ["  " ++ protoTag env proto ++ ","])
          ++ ["  " ++ sentinelTag env s ++ ",", "\x7d " ++ enumTypeName s ++ ";"]) := by
  simp [render, enumOpen]

theorem structBlock_ne_enumOpen (env : Env) (st : Struct) (l : String)
    (h : l ∈ structBlock env st) : l ≠ enumOpen := by
  unfold structBlock at h
  simp only [List.mem_append, List.mem_cons, List.mem_singleton, List.not_mem_nil,
    or_false] at h
  rcases h with (h | h) | h | h
  · subst h; decide
  · rcases mem_forLoop env _ _ l h with h | ⟨f, -, h⟩
    · subst h; decide
    · rw [List.mem_singleton.mp h]
      exact ne_enumOpen_of_head _ (by rw [head_field]; decide)
  · subst h
    exact ne_enumOpen_of_head _ (by rw [head_close]; decide)
  · subst h; decide

theorem preamble_ne_enumOpen (env : Env) (s : Schema) (l : String)
    (h : l ∈ ["#pragma once", "", "// Autogenerated - do not modify", ""]
        ++ forLoop env s.proto_headers (fun hdr => ["#include \"" ++ hdr ++ "\""])
        ++ ["#include <stdint.h>", "", "typedef uint32_t ipc_port_t;", ""]
        ++ forLoop env s.messages.structs (structBlock env)) :
    l ≠ enumOpen := by
  simp only [List.mem_append] at h
  rcases h with ((h | h) | h) | h
  · simp only [List.mem_cons, List.mem_singleton, List.not_mem_nil, or_false] at h
    rcases h with h | h | h | h <;> (subst h; decide)
  · rcases mem_forLoop env _ _ l h with h | ⟨f, -, h⟩
    · subst h; decide
    · rw [List.mem_singleton.mp h]
      exact ne_enumOpen_of_head _ (by rw [head_include]; decide)
  · simp only [List.mem_cons, List.mem_singleton, List.not_mem_nil, or_false] at h
    rcases h with h | h | h | h <;> (subst h; decide)
  · rcases mem_forLoop env _ _ l h with h | ⟨st, -, h⟩
    · subst h; decide
    · exact structBlock_ne_enumOpen env st l h

theorem enumSection_render (env : Env) (s : Schema) :
    enumSection (render env s) =
      forLoop env s.messages.structs (fun struct => ["  " ++ structTag env struct ++ ","])
        ++ forLoop env s.messages.protos (fun proto => ["  " ++ protoTag env proto ++ ","])
        ++ ["  " ++ sentinelTag env s ++ ",", "\x7d " ++ enumTypeName s ++ ";"] := by
  unfold enumSection
  rw [render_split, dropWhile_stop]
  · rfl
  · intro x hx
    exact decide_eq_true (preamble_ne_enumOpen env s x hx)
  · simp

theorem recordSection_render (env : Env) (s : Schema) :
    recordSection (render env s) =
      ["#pragma once", "", "// Autogenerated - do not modify", ""]
        ++ forLoop env s.proto_headers (fun hdr => ["#include \"" ++ hdr ++ "\""])
        ++ ["#include <stdint.h>", "", "typedef uint32_t ipc_port_t;", ""]
        ++ forLoop env s.messages.structs (structBlock env) := by
  unfold recordSection
  rw [render_split, takeWhile_stop]
  · intro x hx
    exact decide_eq_true (preamble_ne_enumOpen env s x hx)
  · simp

/-! ## What the readers find in a rendered header -/

theorem isClose_of_head (l : String) (c : Char) (h : l.data.head? = some c)
    (hc : c ≠ '\x7d') : (!isClose l) = true := by
  simp [isClose, h, hc]

theorem enumLoop_not_close {α : Type} (env : Env) (xs : List α) (tag : α → String)
    (l : String) (h : l ∈ forLoop env xs (fun x => ["  " ++ tag x ++ ","])) :
    (!isClose l) = true := by
  rcases mem_forLoop env _ _ l h with h | ⟨x, -, h⟩
  · subst h; decide
  · rw [List.mem_singleton.mp h]
    exact isClose_of_head _ ' ' (head_member _) (by decide)

theorem enumLoop_members {α : Type} (env : Env) (xs : List α) (tag : α → String) :
    (forLoop env xs (fun x => ["  " ++ tag x ++ ","])).filterMap memberOfLine
      = xs.map tag := by
  rw [filterMap_forLoop env xs _ memberOfLine (by decide)]
  simp only [List.filterMap_cons, List.filterMap_nil, memberOfLine_member]
  exact flatMap_singleton_map xs tag

/-- The members read back from the rendered header are the interpolated tags, in
template order. -/
theorem enumMembers_render (env : Env) (s : Schema) :
    enumMembers (render env s) =
      s.messages.structs.map (structTag env) ++ s.messages.protos.map (protoTag env)
        ++ [sentinelTag env s] := by
  unfold enumMembers
  rw [enumSection_render]
  have h : forLoop env s.messages.structs (fun struct => ["  " ++ structTag env struct ++ ","])
        ++ forLoop env s.messages.protos (fun proto => ["  " ++ protoTag env proto ++ ","])
        ++ ["  " ++ sentinelTag env s ++ ",", "\x7d " ++ enumTypeName s ++ ";"]
      = (forLoop env s.messages.structs (fun struct => ["  " ++ structTag env struct ++ ","])
        ++ forLoop env s.messages.protos (fun proto => ["  " ++ protoTag env proto ++ ","])
        ++ ["  " ++ sentinelTag env s ++ ","]) ++ ("\x7d " ++ enumTypeName s ++ ";") :: [] := by
    simp
  rw [h, takeWhile_stop]
  · rw [List.filterMap_append, List.filterMap_append, enumLoop_members, enumLoop_members]
    simp [memberOfLine_member]
  · intro x hx
    simp only [List.mem_append, List.mem_singleton] at hx
    rcases hx with (hx | hx) | hx
    · exact enumLoop_not_close env _ _ x hx
    · exact enumLoop_not_close env _ _ x hx
    · subst hx
      exact isClose_of_head _ ' ' (head_member _) (by decide)
  · simp [isClose, head_close]

/-- The closing line of the enumeration carries the enumeration's type name. -/
theorem emittedEnumName_render (env : Env) (s : Schema) :
    emittedEnumName (render env s) = some (enumTypeName s) := by
  unfold emittedEnumName
  rw [enumSection_render]
  have h : forLoop env s.messages.structs (fun struct => ["  " ++ structTag env struct ++ ","])
        ++ forLoop env s.messages.protos (fun proto => ["  " ++ protoTag env proto ++ ","])
        ++ ["  " ++ sentinelTag env s ++ ",", "\x7d " ++ enumTypeName s ++ ";"]
      = (forLoop env s.messages.structs (fun struct => ["  " ++ structTag env struct ++ ","])
        ++ forLoop env s.messages.protos (fun proto => ["  " ++ protoTag env proto ++ ","])
        ++ ["  " ++ sentinelTag env s ++ ","]) ++ ("\x7d " ++ enumTypeName s ++ ";") :: [] := by
    simp
  rw [h, dropWhile_stop]
  · simp [typeOfLine_close]
  · intro x hx
    simp only [List.mem_append, List.mem_singleton] at hx
    rcases hx with (hx | hx) | hx
    · exact enumLoop_not_close env _ _ x hx
    · exact enumLoop_not_close env _ _ x hx
    · subst hx
      exact isClose_of_head _ ' ' (head_member _) (by decide)
  · simp [isClose, head_close]

theorem structBlock_types (env : Env) (st : Struct) :
    (structBlock env st).filterMap typeOfLine = [st.name] := by
  unfold structBlock
  rw [List.filterMap_append, List.filterMap_append,
    filterMap_forLoop env st.fields _ typeOfLine (by decide)]
  have hf : ∀ field : String, typeOfLine ("  " ++ field ++ ";") = none := fun field =>
    between_of_head _ _ _ _ (by rw [head_field]; decide)
  have h0 : typeOfLine "typedef struct \x7b" = none := by decide
  have h1 : typeOfLine "" = none := by decide
  simp [hf, h0, h1, typeOfLine_close]

/-- The record type names read back from the rendered header are the struct names, in
schema order. -/
theorem structTypeNames_render (env : Env) (s : Schema) :
    structTypeNames (render env s) = s.messages.structs.map Struct.name := by
  unfold structTypeNames
  rw [recordSection_render]
  rw [List.filterMap_append, List.filterMap_append, List.filterMap_append,
    filterMap_forLoop env s.proto_headers _ typeOfLine (by decide),
    filterMap_forLoop env s.messages.structs _ typeOfLine (by decide)]
  have hi : ∀ hdr : String, typeOfLine ("#include \"" ++ hdr ++ "\"") = none := fun hdr =>
    between_of_head _ _ _ _ (by rw [head_include]; decide)
  have h1 : ["#pragma once", "", "// Autogenerated - do not modify", ""].filterMap typeOfLine
      = [] := by decide
  have h2 : ["#include <stdint.h>", "", "typedef uint32_t ipc_port_t;", ""].filterMap
      typeOfLine = [] := by decide
  rw [h1, h2]
  simp only [structBlock_types, List.filterMap_cons, List.filterMap_nil, hi, List.nil_append,
    List.append_nil, List.flatMap_nil]
  have h3 : (List.flatMap s.proto_headers fun _ => ([] : List String)) = [] := by
    induction s.proto_headers with
    | nil => rfl
    | cons x xs ih => simp [List.flatMap_cons]
  rw [h3]
  exact flatMap_singleton_map s.messages.structs Struct.name

/-! ## Claims -/

/-- C1: for every schema the enum members emitted by `generate` are exactly the tag of
each struct of `messages.structs` in input order, then the tag of each proto of
`messages.protos` in input order, then the single sentinel tag; nothing is reordered,
sorted, dropped or inserted. -/
theorem C1_enum_members_in_input_order (env : Env) (s : Schema) :
    ∃ out, generate env s = Except.ok out ∧
      enumMembers out =
        s.messages.structs.map (structTag env) ++ s.messages.protos.map (protoTag env)
          ++ [sentinelTag env s] :=
  ⟨render env s, rfl, enumMembers_render env s⟩

/-- C2: for every schema the number of members of the enum emitted by `generate` is
`len(messages.structs) + len(messages.protos) + 1`. -/
theorem C2_enum_member_count (env : Env) (s : Schema) :
    ∃ out, generate env s = Except.ok out ∧
      (enumMembers out).length = s.messages.structs.length + s.messages.protos.length + 1 :=
  ⟨render env s, rfl, by simp [enumMembers_render, Nat.add_assoc]⟩

/-- The struct and proto tags are the tag stems behind `IPC_`. -/
theorem derivedTags_eq_stems (env : Env) (s : Schema) :
    derivedTags env s = (tagStems env s).map (fun t => "IPC_" ++ t) := by
  have hp : ∀ t : String, "IPC_PROTO_" ++ t = "IPC_" ++ ("PROTO_" ++ t) := fun t => by
    rw [← String.append_assoc]; rfl
  unfold derivedTags tagStems
  rw [List.map_append, List.map_map, List.map_map]
  have hq : (fun t : String => "IPC_" ++ t) ∘ (fun p => "PROTO_" ++ protoTail env p)
      = protoTag env := funext (fun p => (hp (protoTail env p)).symm)
  rw [hq]
  rfl

theorem append_left_injective (a : String) :
    Function.Injective (fun t : String => a ++ t) := by
  intro x y h
  have hd : (a ++ x).data = (a ++ y).data := congrArg String.data h
  rw [String.data_append, String.data_append] at hd
  exact String.ext (List.append_cancel_left hd)

/-- C3 as stated fails: the two structs `FooAa` and `FooBb` satisfy the uniqueness
invariant, and both get the enum tag `IPC_FOO`. -/
theorem C3_counterexample :
    uniqueNames defaultEnv twinSchema ∧
      generate defaultEnv twinSchema = Except.ok (render defaultEnv twinSchema) ∧
      enumMembers (render defaultEnv twinSchema) = ["IPC_FOO", "IPC_FOO", "IPC_SVC_END"] ∧
      ¬ (enumMembers (render defaultEnv twinSchema)).Nodup := by
  refine ⟨by decide, rfl, by decide, by decide⟩

/-- Distinct tag stems give distinct enum tags: with the uniqueness invariant, the
emitted enum tags and the emitted struct type names are then pairwise distinct. -/
theorem members_nodup_of_stems_nodup (env : Env) (s : Schema)
    (hu : uniqueNames env s) (hstem : (tagStems env s).Nodup) :
    (enumMembers (render env s)).Nodup ∧ (structTypeNames (render env s)).Nodup := by
  refine ⟨?_, ?_⟩
  · have hm : enumMembers (render env s) = derivedTags env s ++ [sentinelTag env s] := by
      rw [enumMembers_render]; rfl
    rw [hm]
    have hd : (derivedTags env s).Nodup := by
      rw [derivedTags_eq_stems]
      exact hstem.map (append_left_injective "IPC_")
    apply List.Nodup.append hd (List.nodup_singleton _)
    intro x hx hx2
    rw [List.mem_singleton] at hx2
    subst hx2
    exact hu.2 hx
  · rw [structTypeNames_render]
    exact (List.nodup_append.mp hu.1).1

/-- Upper-casing `FooMsg` and `svc` under any case table. -/
theorem upper_FooMsg (env : Env) : upper env "FooMsg" = "FOOMSG" := by
  have h := env.caseMap.toUpper_ascii
  simp +decide [upper, List.flatMap_cons, h]

theorem upper_svc (env : Env) : upper env "svc" = "SVC" := by
  have h := env.caseMap.toUpper_ascii
  simp +decide [upper, List.flatMap_cons, h]

/-- C4 as stated fails: for the example schema the first member is `IPC_FOOM`, not
`IPC_FOO`. -/
theorem C4_counterexample :
    generate defaultEnv fooSchema = Except.ok (render defaultEnv fooSchema) ∧
      enumMembers (render defaultEnv fooSchema) = ["IPC_FOOM", "IPC_SVC_END"] ∧
      enumMembers (render defaultEnv fooSchema) ≠ ["IPC_FOO", "IPC_SVC_END"] :=
  ⟨rfl, by decide, by decide⟩

/-- C4, amended: for the schema with structs `[FooMsg]`, no protos and port name `svc`,
the enum emitted by `generate` contains exactly the two members `IPC_FOOM` and
`IPC_SVC_END`, in that order (slicing off two characters leaves the `M` of `Msg`). -/
theorem C4_example_members (env : Env) :
    ∃ out, generate env fooSchema = Except.ok out ∧
      enumMembers out = ["IPC_FOOM", "IPC_SVC_END"] := by
  refine ⟨render env fooSchema, rfl, ?_⟩
  rw [enumMembers_render]
  simp only [fooSchema, List.map_cons, List.map_nil, structTag, sentinelTag, upper_FooMsg,
    upper_svc]
  decide

/-- C5 as stated fails: with the one-character struct name `A` rendering raises no
`ValidationError`; it returns the whole header, with the bare member `IPC_`. -/
theorem C5_counterexample :
    (∃ st ∈ shortSchema.messages.structs, st.name.length < 2) ∧
      generate defaultEnv shortSchema ≠ Except.error GenError.ValidationError ∧
      generate defaultEnv shortSchema = Except.ok
        ["#pragma once", "", "// Autogenerated - do not modify", "", "",
          "#include <stdint.h>", "", "typedef uint32_t ipc_port_t;", "", "",
          "typedef struct \x7b", "", "\x7d A;", "", "",
          "typedef enum \x7b", "", "  IPC_,", "", "", "  IPC_SVC_END,",
          "\x7d ipc_svc_msg_t;"] := by
  refine ⟨by decide, fun h => ?_, ?_⟩
  · cases h
  · have h : render defaultEnv shortSchema =
        ["#pragma once", "", "// Autogenerated - do not modify", "", "",
          "#include <stdint.h>", "", "typedef uint32_t ipc_port_t;", "", "",
          "typedef struct \x7b", "", "\x7d A;", "", "",
          "typedef enum \x7b", "", "  IPC_,", "", "", "  IPC_SVC_END,",
          "\x7d ipc_svc_msg_t;"] := by decide
    rw [← h]; rfl

/-- Upper-casing keeps the length of an ASCII string. -/
theorem length_upper_ascii (env : Env) (s : String) (h : ∀ c ∈ s.data, c.toNat < 128) :
    (upper env s).length = s.length := by
  show (s.data.flatMap env.caseMap.toUpper).length = s.data.length
  revert h
  generalize s.data = l
  intro h
  induction l with
  | nil => rfl
  | cons c cs ih =>
    rw [List.flatMap_cons, List.length_append, List.length_cons,
      env.caseMap.toUpper_ascii c (h c (List.mem_cons_self c cs)),
      ih (fun d hd => h d (List.mem_cons_of_mem c hd))]
    simp [Nat.add_comm]

/-- The slice `[:-2]` of a string of at most two characters is empty. -/
theorem dropLast2_short (s : String) (h : s.length ≤ 2) : dropLast2 s = "" := by
  have h2 : s.data.length - 2 = 0 := by
    have h3 : s.data.length ≤ 2 := h
    omega
  unfold dropLast2
  rw [h2]
  rfl

/-- C5, amended: for every schema that contains a struct whose name has fewer than 2
characters, `generate` does not fail: it returns the complete header, whose enum has one
member per struct and proto plus the sentinel, the member of the short-named struct
(the tag the slice yields for it, which is the bare `IPC_` when the name is ASCII)
among them. -/
theorem C5_short_name_still_renders (env : Env) (s : Schema) (st : Struct)
    (hst : st ∈ s.messages.structs) (hshort : st.name.length < 2) :
    ∃ out, generate env s = Except.ok out ∧
      structTag env st ∈ enumMembers out ∧
      (enumMembers out).length = s.messages.structs.length + s.messages.protos.length + 1 ∧
      ((∀ c ∈ st.name.data, c.toNat < 128) → structTag env st = "IPC_") := by
  refine ⟨render env s, rfl, ?_, ?_, ?_⟩
  · rw [enumMembers_render]
    exact List.mem_append_left _ (List.mem_append_left _ (List.mem_map_of_mem _ hst))
  · simp [enumMembers_render, Nat.add_assoc]
  · intro hascii
    have hlen : (upper env st.name).length ≤ 2 := by
      rw [length_upper_ascii env st.name hascii]; omega
    rw [structTag, dropLast2_short _ hlen]
    rfl

/-- The amended C5 on the schema with the one-character struct name `A`. -/
theorem C5_short_name_still_renders_witness :
    ⟨"A", []⟩ ∈ shortSchema.messages.structs ∧ "A".length < 2 ∧
      ∃ out, generate defaultEnv shortSchema = Except.ok out ∧
        structTag defaultEnv ⟨"A", []⟩ ∈ enumMembers out ∧
        (enumMembers out).length
          = shortSchema.messages.structs.length + shortSchema.messages.protos.length + 1 ∧
        ((∀ c ∈ "A".data, c.toNat < 128) → structTag defaultEnv ⟨"A", []⟩ = "IPC_") :=
  ⟨by decide, by decide,
    C5_short_name_still_renders defaultEnv shortSchema ⟨"A", []⟩ (by decide) (by decide)⟩

/-- C6 as stated fails: a schema whose struct tag is the bare `IPC_` and whose two proto
tags are both the bare `IPC_PROTO_` raises no `SchemaError`; the header is rendered with
exactly those members. -/
theorem C6_counterexample :
    schemaDefect defaultEnv bareSchema ∧
      generate defaultEnv bareSchema ≠ Except.error GenError.SchemaError ∧
      generate defaultEnv bareSchema = Except.ok (render defaultEnv bareSchema) ∧
      enumMembers (render defaultEnv bareSchema)
        = ["IPC_", "IPC_PROTO_", "IPC_PROTO_", "IPC_SVC_END"] := by
  refine ⟨by decide, fun h => ?_, rfl, by decide⟩
  cases h

/-- C6, amended: for every schema in which some derived tag is empty after its fixed
literal or two derived enum tags are equal, `generate` does not fail: it returns the
complete header, whose enum members are exactly the derived tags followed by the
sentinel, so the bare or repeated tag is among the emitted members. -/
theorem C6_defective_schema_still_renders (env : Env) (s : Schema)
    (h : schemaDefect env s) :
    ∃ out, generate env s = Except.ok out ∧
      enumMembers out = derivedTags env s ++ [sentinelTag env s] ∧
      ("IPC_" ∈ enumMembers out ∨ "IPC_PROTO_" ∈ enumMembers out
        ∨ ¬ (enumMembers out).Nodup) := by
  have hm : enumMembers (render env s) = derivedTags env s ++ [sentinelTag env s] := by
    rw [enumMembers_render]; rfl
  refine ⟨render env s, rfl, hm, ?_⟩
  rw [hm]
  rcases h with ⟨st, hst, he⟩ | ⟨p, hp, he⟩ | hd
  · left
    have ht : structTag env st = "IPC_" := by rw [structTag, he]; rfl
    rw [← ht]
    exact List.mem_append_left _ (List.mem_append_left _ (List.mem_map_of_mem _ hst))
  · right; left
    have ht : protoTag env p = "IPC_PROTO_" := by rw [protoTag, he]; rfl
    rw [← ht]
    exact List.mem_append_left _ (List.mem_append_right _ (List.mem_map_of_mem _ hp))
  · right; right; exact hd

/-- The amended C6 on the schema with a bare struct tag and two equal proto tags. -/
theorem C6_defective_schema_still_renders_witness :
    schemaDefect defaultEnv bareSchema ∧
      ∃ out, generate defaultEnv bareSchema = Except.ok out ∧
        enumMembers out = derivedTags defaultEnv bareSchema ++ [sentinelTag defaultEnv bareSchema] ∧
        ("IPC_" ∈ enumMembers out ∨ "IPC_PROTO_" ∈ enumMembers out
          ∨ ¬ (enumMembers out).Nodup) :=
  ⟨by decide, C6_defective_schema_still_renders defaultEnv bareSchema (by decide)⟩

/-! ## Upper-casing and slicing -/

/-- Upper-casing never shortens a string. -/
theorem length_le_upper (env : Env) (s : String) : s.length ≤ (upper env s).length := by
  show s.data.length ≤ (s.data.flatMap env.caseMap.toUpper).length
  induction s.data with
  | nil => simp
  | cons c cs ih =>
    rw [List.flatMap_cons, List.length_append, List.length_cons]
    have hc : 0 < (env.caseMap.toUpper c).length :=
      List.length_pos.mpr (env.caseMap.toUpper_ne_nil c)
    omega

theorem dropLast2_eq_withoutLastTwo (s : String) : dropLast2 s = withoutLastTwo s := by
  unfold dropLast2 withoutLastTwo
  congr 1
  rw [List.dropLast_eq_take, List.dropLast_eq_take, List.take_take, List.length_take]
  congr 1
  omega

theorem withoutLastTwo_append_lastTwo (s : String) : s = withoutLastTwo s ++ lastTwo s := by
  rw [← dropLast2_eq_withoutLastTwo]
  apply String.ext
  rw [String.data_append]
  exact (List.take_append_drop (s.data.length - 2) s.data).symm

theorem length_lastTwo (s : String) (h : 2 ≤ s.length) : (lastTwo s).length = 2 := by
  show (s.data.drop (s.data.length - 2)).length = 2
  have h2 : 2 ≤ s.data.length := h
  rw [List.length_drop]
  omega

theorem length_dropLast2 (s : String) : (dropLast2 s).length = s.length - 2 := by
  show (s.data.take (s.data.length - 2)).length = s.data.length - 2
  rw [List.length_take]
  omega

theorem withoutFirst_append (a t : String) : withoutFirst a.length (a ++ t) = t := by
  unfold withoutFirst
  apply String.ext
  show ((a ++ t).data.drop a.data.length) = t.data
  rw [String.data_append, List.drop_left]

/-- The member at a struct's position is that struct's tag. -/
theorem enumMembers_struct (env : Env) (s : Schema) (i : Nat) (st : Struct)
    (hi : s.messages.structs[i]? = some st) :
    (enumMembers (render env s))[i]? = some (structTag env st) := by
  have hlt : i < s.messages.structs.length := (List.getElem?_eq_some.mp hi).1
  rw [enumMembers_render, List.append_assoc,
    List.getElem?_append_left (by rw [List.length_map]; exact hlt),
    List.getElem?_map, hi]
  rfl

/-- The member at a proto's position, after all structs, is that proto's tag. -/
theorem enumMembers_proto (env : Env) (s : Schema) (i : Nat) (p : Proto)
    (hi : s.messages.protos[i]? = some p) :
    (enumMembers (render env s))[s.messages.structs.length + i]? = some (protoTag env p) := by
  have hlt : i < s.messages.protos.length := (List.getElem?_eq_some.mp hi).1
  rw [enumMembers_render, List.append_assoc,
    List.getElem?_append_right (by rw [List.length_map]; omega),
    List.length_map, Nat.add_sub_cancel_left,
    List.getElem?_append_left (by rw [List.length_map]; exact hlt),
    List.getElem?_map, hi]
  rfl

/-- C7: for every struct whose name has at least 2 characters, the enum tag emitted for
it (the member at the struct's position) is `IPC_` followed by the upper-cased name
without its final two characters; the tag's length is `len(upper(name)) + 2`, and
`upper(name)` is the tag without `IPC_` followed by the last two characters of
`upper(name)`. -/
theorem C7_struct_tag_shape (env : Env) (s : Schema) (i : Nat) (st : Struct)
    (hi : s.messages.structs[i]? = some st) (h2 : 2 ≤ st.name.length) :
    ∃ out tag, generate env s = Except.ok out ∧ (enumMembers out)[i]? = some tag ∧
      tag = "IPC_" ++ withoutLastTwo (upper env st.name) ∧
      tag.length = (upper env st.name).length + 2 ∧
      (lastTwo (upper env st.name)).length = 2 ∧
      upper env st.name = withoutFirst 4 tag ++ lastTwo (upper env st.name) := by
  have hu : 2 ≤ (upper env st.name).length := Nat.le_trans h2 (length_le_upper env st.name)
  refine ⟨render env s, structTag env st, rfl, enumMembers_struct env s i st hi, ?_, ?_,
    length_lastTwo _ hu, ?_⟩
  · rw [structTag, dropLast2_eq_withoutLastTwo]
  · rw [structTag, String.length_append, length_dropLast2]
    have h4 : ("IPC_" : String).length = 4 := rfl
    omega
  · have h4 : withoutFirst 4 (structTag env st) = dropLast2 (upper env st.name) :=
      withoutFirst_append "IPC_" _
    rw [h4, dropLast2_eq_withoutLastTwo]
    exact withoutLastTwo_append_lastTwo _

/-- C7 on the struct `FooMsg` of the example schema. -/
theorem C7_struct_tag_shape_witness :
    fooSchema.messages.structs[0]? = some ⟨"FooMsg", ["int32_t x;"]⟩ ∧
      2 ≤ "FooMsg".length ∧
      ∃ out tag, generate defaultEnv fooSchema = Except.ok out ∧
        (enumMembers out)[0]? = some tag ∧
        tag = "IPC_" ++ withoutLastTwo (upper defaultEnv "FooMsg") ∧
        tag.length = (upper defaultEnv "FooMsg").length + 2 ∧
        (lastTwo (upper defaultEnv "FooMsg")).length = 2 ∧
        upper defaultEnv "FooMsg" = withoutFirst 4 tag ++ lastTwo (upper defaultEnv "FooMsg") :=
  ⟨by decide, by decide,
    C7_struct_tag_shape defaultEnv fooSchema 0 ⟨"FooMsg", ["int32_t x;"]⟩ (by decide)
      (by decide)⟩

/-! ## Splitting and joining -/

theorem splitChars_free (sep : Char) (u : List Char) (h : sep ∉ u) :
    splitChars sep u = [u] := by
  induction u with
  | nil => rfl
  | cons c cs ih =>
    have hc : c ≠ sep := fun e => h (e ▸ List.mem_cons_self c cs)
    have hcs : sep ∉ cs := fun m => h (List.mem_cons_of_mem c m)
    simp [splitChars, hc, ih hcs]

theorem splitChars_append (sep : Char) (u rest : List Char) (h : sep ∉ u) :
    splitChars sep (u ++ sep :: rest) = u :: splitChars sep rest := by
  induction u with
  | nil => simp [splitChars]
  | cons c cs ih =>
    have hc : c ≠ sep := fun e => h (e ▸ List.mem_cons_self c cs)
    have hcs : sep ∉ cs := fun m => h (List.mem_cons_of_mem c m)
    simp [splitChars, hc, ih hcs]

/-- Splitting undoes joining, when no token contains the separator. -/
theorem split_join (u0 : String) (us : List String)
    (h : ∀ u ∈ u0 :: us, '_' ∉ u.data) :
    split (join "_" (u0 :: us)) '_' = u0 :: us := by
  induction us generalizing u0 with
  | nil =>
    show (splitChars '_' u0.data).map String.mk = [u0]
    rw [splitChars_free '_' u0.data (h u0 (List.mem_cons_self _ _))]
    rfl
  | cons u1 us ih =>
    have h0 : '_' ∉ u0.data := h u0 (List.mem_cons_self _ _)
    have ht : ∀ u ∈ u1 :: us, '_' ∉ u.data := fun u hu => h u (List.mem_cons_of_mem _ hu)
    have hd : (join "_" (u0 :: u1 :: us)).data
        = u0.data ++ '_' :: (join "_" (u1 :: us)).data := by
      show (u0 ++ "_" ++ join "_" (u1 :: us)).data = _
      rw [String.data_append, String.data_append, List.append_assoc]
      rfl
    have ih2 := ih u1 ht
    unfold split at ih2 ⊢
    rw [hd, splitChars_append '_' _ _ h0, List.map_cons, ih2]

theorem upper_append (env : Env) (a b : String) :
    upper env (a ++ b) = upper env a ++ upper env b := by
  apply String.ext
  show (a ++ b).data.flatMap env.caseMap.toUpper
    = (upper env a ++ upper env b).data
  rw [String.data_append, String.data_append, List.flatMap_append]
  rfl

theorem upper_underscore (env : Env) : upper env "_" = "_" := by
  have h := env.caseMap.toUpper_ascii
  simp +decide [upper, List.flatMap_cons, h]

/-- Upper-casing goes through an underscore-joined name token by token. -/
theorem upper_join (env : Env) (ts : List String) :
    upper env (join "_" ts) = join "_" (ts.map (upper env)) := by
  induction ts with
  | nil => rfl
  | cons t ts ih =>
    cases ts with
    | nil => rfl
    | cons t1 ts =>
      show upper env (t ++ "_" ++ join "_" (t1 :: ts))
        = upper env t ++ "_" ++ join "_" ((t1 :: ts).map (upper env))
      rw [upper_append, upper_append, upper_underscore, ih]

/-- Upper-casing brings no underscore into a token that has none. -/
theorem upper_free (env : Env) (t : String) (h : '_' ∉ t.data) :
    '_' ∉ (upper env t).data := by
  intro hm
  have hm2 : '_' ∈ t.data.flatMap env.caseMap.toUpper := hm
  rw [List.mem_flatMap] at hm2
  obtain ⟨c, hc, hu⟩ := hm2
  have hcu : c = '_' := env.caseMap.underscore_of_mem c hu
  exact h (hcu ▸ hc)

/-- The proto expression on an underscore-joined name: the upper-cased tokens after the
first, joined again. -/
theorem protoTail_tokens (env : Env) (p : Proto) (t0 : String) (ts : List String)
    (htok : ∀ t ∈ t0 :: ts, '_' ∉ t.data) (hname : p.name = join "_" (t0 :: ts)) :
    protoTail env p = join "_" (ts.map (upper env)) := by
  unfold protoTail
  rw [hname, upper_join, List.map_cons, split_join]
  · rfl
  · intro u hu
    rw [← List.map_cons (upper env) t0 ts, List.mem_map] at hu
    obtain ⟨t, ht, rfl⟩ := hu
    exact upper_free env t (htok t ht)

/-- C8: for every proto, the enum tag emitted for it (the member at the proto's position,
after the structs) is `IPC_PROTO_` followed by the upper-cased name split on underscore,
without its first token, joined with underscore again; when the name is the tokens
`t0_t1_..._tn` the tag is `IPC_PROTO_` followed by `upper(t1)_..._upper(tn)`. -/
theorem C8_proto_tag_shape (env : Env) (s : Schema) (i : Nat) (p : Proto)
    (hi : s.messages.protos[i]? = some p) :
    ∃ out tag, generate env s = Except.ok out ∧
      (enumMembers out)[s.messages.structs.length + i]? = some tag ∧
      tag = "IPC_PROTO_" ++ join "_" ((split (upper env p.name) '_').drop 1) ∧
      ∀ (t0 : String) (ts : List String), (∀ t ∈ t0 :: ts, '_' ∉ t.data) →
        p.name = join "_" (t0 :: ts) →
        tag = "IPC_PROTO_" ++ join "_" (ts.map (upper env)) := by
  refine ⟨render env s, protoTag env p, rfl, enumMembers_proto env s i p hi, rfl, ?_⟩
  intro t0 ts htok hname
  rw [protoTag, protoTail_tokens env p t0 ts htok hname]

/-- C8 on the proto `foo_bar_baz`, with tokens `foo`, `bar`, `baz`: the member after the
struct tag is `IPC_PROTO_BAR_BAZ`. -/
theorem C8_proto_tag_shape_witness :
    protoSchema.messages.protos[0]? = some ⟨"foo_bar_baz"⟩ ∧
      ∃ out, generate defaultEnv protoSchema = Except.ok out ∧
        (enumMembers out)[1]? = some "IPC_PROTO_BAR_BAZ" := by
  refine ⟨by decide, ?_⟩
  obtain ⟨out, tag, hgen, hmem, -, htag⟩ :=
    C8_proto_tag_shape defaultEnv protoSchema 0 ⟨"foo_bar_baz"⟩ (by decide)
  have ht : tag = "IPC_PROTO_BAR_BAZ" := by
    rw [htag "foo" ["bar", "baz"] (by decide) (by decide)]
    decide
  exact ⟨out, hgen, ht ▸ hmem⟩

/-- C9 as stated fails: with the struct `auth_end_t` and the port `auth` the struct tag
and the sentinel are both `IPC_AUTH_END`, so the sentinel's name occurs twice among the
members. -/
theorem C9_counterexample :
    generate defaultEnv authSchema = Except.ok (render defaultEnv authSchema) ∧
      sentinelTag defaultEnv authSchema = "IPC_AUTH_END" ∧
      enumMembers (render defaultEnv authSchema) = ["IPC_AUTH_END", "IPC_AUTH_END"] ∧
      (enumMembers (render defaultEnv authSchema)).count "IPC_AUTH_END" = 2 :=
  ⟨rfl, by decide, by decide, by decide⟩

/-- C9, amended: for every schema the last enum member is the sentinel
`IPC_ ++ upper(port_name) ++ _END`, which the template emits once, as the final member,
after the struct and proto tags; its name occurs among the members once more than among
the struct and proto tags, hence exactly once if and only if no struct or proto tag
equals it; and the enum type is named `ipc_ ++ port_name ++ _msg_t`, with `port_name`
as given. -/
theorem C9_sentinel_emitted_last (env : Env) (s : Schema) :
    ∃ out, generate env s = Except.ok out ∧
      (enumMembers out).getLast? = some ("IPC_" ++ upper env s.port_name ++ "_END") ∧
      enumMembers out = derivedTags env s ++ ["IPC_" ++ upper env s.port_name ++ "_END"] ∧
      (enumMembers out).count ("IPC_" ++ upper env s.port_name ++ "_END")
        = (derivedTags env s).count ("IPC_" ++ upper env s.port_name ++ "_END") + 1 ∧
      ((enumMembers out).count ("IPC_" ++ upper env s.port_name ++ "_END") = 1 ↔
        ("IPC_" ++ upper env s.port_name ++ "_END") ∉ derivedTags env s) ∧
      emittedEnumName out = some ("ipc_" ++ s.port_name ++ "_msg_t") := by
  have hm : enumMembers (render env s)
      = derivedTags env s ++ ["IPC_" ++ upper env s.port_name ++ "_END"] := by
    rw [enumMembers_render]; rfl
  have hc : (enumMembers (render env s)).count ("IPC_" ++ upper env s.port_name ++ "_END")
      = (derivedTags env s).count ("IPC_" ++ upper env s.port_name ++ "_END") + 1 := by
    rw [hm, List.count_append]
    simp
  refine ⟨render env s, rfl, ?_, hm, hc, ?_, emittedEnumName_render env s⟩
  · rw [hm, List.getLast?_concat]
  · rw [hc, ← List.count_eq_zero]
    omega

/-- A rendered line that is not blank comes from the text of the template or from one
of its loop bodies; with no structs, none of them opens a record. -/
theorem no_record_without_structs (env : Env) (s : Schema)
    (hs : s.messages.structs = []) : "typedef struct \x7b" ∉ render env s := by
  intro h
  have hne : ∀ l : String, l.data.head? ≠ some 't' → l ≠ "typedef struct \x7b" := by
    rintro l hl rfl
    exact hl rfl
  rw [render_split, hs] at h
  simp only [List.mem_append, List.mem_cons, List.mem_singleton, List.not_mem_nil,
    or_false] at h
  rcases h with (((h | h) | h) | h) | h | (h | h) | h
  · rcases h with h | h | h | h <;> exact absurd h (by decide)
  · rcases mem_forLoop env _ _ _ h with h | ⟨hdr, -, h⟩
    · exact absurd h (by decide)
    · exact hne _ (by rw [head_include]; decide) (List.mem_singleton.mp h).symm
  · rcases h with h | h | h | h <;> exact absurd h (by decide)
  · rcases mem_forLoop env _ _ _ h with h | ⟨st, hst, -⟩
    · exact absurd h (by decide)
    · exact absurd hst (List.not_mem_nil st)
  · exact absurd h (by decide)
  · rcases mem_forLoop env _ _ _ h with h | ⟨st, hst, -⟩
    · exact absurd h (by decide)
    · exact absurd hst (List.not_mem_nil st)
  · rcases mem_forLoop env _ _ _ h with h | ⟨p, -, h⟩
    · exact absurd h (by decide)
    · exact hne _ (by rw [head_member]; decide) (List.mem_singleton.mp h).symm
  · rcases h with h | h
    · exact hne _ (by rw [head_member]; decide) h.symm
    · exact hne _ (by rw [head_close]; decide) h.symm

/-- C10: for every schema with empty `messages.structs` and empty `messages.protos`, the
enum emitted by `generate` has exactly one member, the sentinel
`IPC_ ++ upper(port_name) ++ _END`, and no struct definition is emitted: no line opens a
record and no record type is named. -/
theorem C10_empty_schema_only_sentinel (env : Env) (s : Schema)
    (hs : s.messages.structs = []) (hp : s.messages.protos = []) :
    ∃ out, generate env s = Except.ok out ∧
      enumMembers out = ["IPC_" ++ upper env s.port_name ++ "_END"] ∧
      (enumMembers out).length = 1 ∧
      "typedef struct \x7b" ∉ out ∧ structTypeNames out = [] := by
  have hm : enumMembers (render env s) = ["IPC_" ++ upper env s.port_name ++ "_END"] := by
    rw [enumMembers_render, hs, hp]; rfl
  refine ⟨render env s, rfl, hm, by rw [hm]; rfl, no_record_without_structs env s hs, ?_⟩
  rw [structTypeNames_render, hs]
  rfl

/-- C10 on a schema with one include path, no structs and no protos. -/
theorem C10_empty_schema_only_sentinel_witness :
    emptySchema.messages.structs = [] ∧ emptySchema.messages.protos = [] ∧
      ∃ out, generate defaultEnv emptySchema = Except.ok out ∧
        enumMembers out = ["IPC_" ++ upper defaultEnv emptySchema.port_name ++ "_END"] ∧
        (enumMembers out).length = 1 ∧
        "typedef struct \x7b" ∉ out ∧ structTypeNames out = [] :=
  ⟨rfl, rfl, C10_empty_schema_only_sentinel defaultEnv emptySchema rfl rfl⟩

/-! ## Selecting lines of the rendered header -/

theorem filter_forLoop {α : Type} (env : Env) (xs : List α) (body : α → List String)
    (p : String → Bool) (hp : p "" = false) :
    (forLoop env xs body).filter p = xs.flatMap (fun x => (body x).filter p) := by
  have hb : (blockTag env).filter p = [] := by
    unfold blockTag; split <;> simp [hp]
  unfold forLoop
  induction xs with
  | nil => simpa using hb
  | cons x xs ih =>
    simp only [List.flatMap_cons, List.append_assoc, List.filter_append, hb,
      List.nil_append] at ih ⊢
    rw [ih]

theorem flatMap_nil_of_forall {α β : Type} (xs : List α) (f : α → List β)
    (h : ∀ x, f x = []) : xs.flatMap f = [] :=
  List.flatMap_eq_nil_iff.mpr (fun x _ => h x)

/-- A selection that passes over blank lines, over lines that start with neither `#` nor
`t`, and over the two opening lines, keeps of a rendered header only what it keeps of
the fixed text and of the include lines before the records. -/
theorem filter_render (env : Env) (s : Schema) (p : String → Bool)
    (h0 : p "" = false)
    (hhead : ∀ (l : String) (c : Char), l.data.head? = some c → c ≠ '#' → c ≠ 't' →
      p l = false)
    (hso : p "typedef struct \x7b" = false) (heo : p enumOpen = false) :
    (render env s).filter p =
      ["#pragma once", "", "// Autogenerated - do not modify", ""].filter p
        ++ s.proto_headers.flatMap (fun hdr => ["#include \"" ++ hdr ++ "\""].filter p)
        ++ ["#include <stdint.h>", "", "typedef uint32_t ipc_port_t;", ""].filter p := by
  have hmem : ∀ t : String, p ("  " ++ t ++ ",") = false := fun t =>
    hhead _ ' ' (head_member t) (by decide) (by decide)
  have hfld : ∀ t : String, p ("  " ++ t ++ ";") = false := fun t =>
    hhead _ ' ' (head_field t) (by decide) (by decide)
  have hcl : ∀ t : String, p ("\x7d " ++ t ++ ";") = false := fun t =>
    hhead _ '\x7d' (head_close t) (by decide) (by decide)
  have hblock : ∀ st : Struct, (structBlock env st).filter p = [] := by
    intro st
    unfold structBlock
    rw [List.filter_append, List.filter_append, filter_forLoop env st.fields _ p h0]
    simp [hso, hcl, h0, hfld]
  have hpost : (enumOpen ::
      (forLoop env s.messages.structs (fun struct => ["  " ++ structTag env struct ++ ","])
        ++ forLoop env s.messages.protos (fun proto => ["  " ++ protoTag env proto ++ ","])
        ++ ["  " ++ sentinelTag env s ++ ",", "\x7d " ++ enumTypeName s ++ ";"])).filter p
      = [] := by
    rw [List.filter_cons, if_neg (by simp [heo]), List.filter_append, List.filter_append,
      filter_forLoop env s.messages.structs _ p h0,
      filter_forLoop env s.messages.protos _ p h0]
    simp [hmem, hcl]
  rw [render_split, List.filter_append, hpost, List.append_nil, List.filter_append,
    List.filter_append, List.filter_append, filter_forLoop env s.proto_headers _ p h0,
    filter_forLoop env s.messages.structs _ p h0,
    flatMap_nil_of_forall s.messages.structs _ hblock, List.append_nil]

theorem isInclude_of_head (l : String) (c : Char) (h : l.data.head? = some c)
    (hc : c ≠ '#') : isInclude l = false := by
  unfold isInclude
  cases hl : l.data with
  | nil => rw [hl] at h; cases h
  | cons d ds =>
    rw [hl] at h
    have hd : d = c := by simpa using h
    subst hd
    simp only [decide_eq_false_iff_not]
    intro he
    rw [show (9 : Nat) = 8 + 1 from rfl, List.take_succ_cons] at he
    exact hc (List.cons.inj he).1

theorem isInclude_directive (hdr : String) :
    isInclude ("#include \"" ++ hdr ++ "\"") = true := by
  simp [isInclude, String.data_append]

theorem portTypedef_of_head (l : String) (c : Char) (h : l.data.head? = some c)
    (hc : c ≠ 't') : l ≠ portTypedef := by
  rintro rfl
  exact hc (by simpa [portTypedef] using h.symm)

/-- The include directives and the port type alias, as they follow one another in the
rendered header. -/
theorem includesAndPortType_render (env : Env) (s : Schema) :
    includesAndPortType (render env s) =
      s.proto_headers.map (fun hdr => "#include \"" ++ hdr ++ "\"")
        ++ ["#include <stdint.h>", "typedef uint32_t ipc_port_t;"] := by
  unfold includesAndPortType
  rw [filter_render env s _ (by decide)
    (fun l c h h1 h2 => by
      simp [isInclude_of_head l c h h1, portTypedef_of_head l c h h2])
    (by decide) (by decide)]
  have h1 : ["#pragma once", "", "// Autogenerated - do not modify", ""].filter
      (fun l => isInclude l || decide (l = portTypedef)) = [] := by decide
  have h2 : ["#include <stdint.h>", "", "typedef uint32_t ipc_port_t;", ""].filter
      (fun l => isInclude l || decide (l = portTypedef))
      = ["#include <stdint.h>", "typedef uint32_t ipc_port_t;"] := by decide
  rw [h1, h2, List.nil_append]
  congr 1
  simp only [List.filter_cons, isInclude_directive, Bool.true_or, if_true, List.filter_nil]
  exact flatMap_singleton_map s.proto_headers _

/-- The include directives of the rendered header. -/
theorem includeDirectives_render (env : Env) (s : Schema) :
    includeDirectives (render env s) =
      s.proto_headers.map (fun hdr => "#include \"" ++ hdr ++ "\"")
        ++ ["#include <stdint.h>"] := by
  unfold includeDirectives
  rw [filter_render env s _ (by decide)
    (fun l c h h1 _ => isInclude_of_head l c h h1) (by decide) (by decide)]
  have h1 : ["#pragma once", "", "// Autogenerated - do not modify", ""].filter isInclude
      = [] := by decide
  have h2 : ["#include <stdint.h>", "", "typedef uint32_t ipc_port_t;", ""].filter isInclude
      = ["#include <stdint.h>"] := by decide
  rw [h1, h2, List.nil_append]
  congr 1
  simp only [List.filter_cons, isInclude_directive, if_true, List.filter_nil]
  exact flatMap_singleton_map s.proto_headers _

/-- C11: for every schema `generate` emits exactly one include directive
`#include "<hdr>"` per entry of `proto_headers`, in input order with duplicates kept;
the fixed directive `#include <stdint.h>` comes after all of them and before the
`ipc_port_t` typedef; and the number of include directives is
`len(proto_headers) + 1`. -/
theorem C11_include_directives (env : Env) (s : Schema) :
    ∃ out, generate env s = Except.ok out ∧
      includeDirectives out =
        s.proto_headers.map (fun hdr => "#include \"" ++ hdr ++ "\"")
          ++ ["#include <stdint.h>"] ∧
      includesAndPortType out =
        s.proto_headers.map (fun hdr => "#include \"" ++ hdr ++ "\"")
          ++ ["#include <stdint.h>", "typedef uint32_t ipc_port_t;"] ∧
      (includeDirectives out).length = s.proto_headers.length + 1 :=
  ⟨render env s, rfl, includeDirectives_render env s, includesAndPortType_render env s,
    by rw [includeDirectives_render]; simp⟩

/-! ## Records read back from the rendered header -/

theorem readRecords_inert (l : String) (ls acc : List String) (h1 : l ≠ structOpen)
    (h2 : typeOfLine l = none) (h3 : declOfLine l = none) :
    readRecords (l :: ls) acc = readRecords ls acc := by
  rw [readRecords, if_neg h1, h2, h3]

theorem readRecords_skip (pre rest acc : List String)
    (h : ∀ l ∈ pre, l ≠ structOpen ∧ typeOfLine l = none ∧ declOfLine l = none) :
    readRecords (pre ++ rest) acc = readRecords rest acc := by
  induction pre with
  | nil => rfl
  | cons l ls ih =>
    obtain ⟨h1, h2, h3⟩ := h l (List.mem_cons_self l ls)
    rw [List.cons_append, readRecords_inert l _ acc h1 h2 h3]
    exact ih (fun x hx => h x (List.mem_cons_of_mem l hx))

theorem readRecords_blockTag (env : Env) (rest acc : List String) :
    readRecords (blockTag env ++ rest) acc = readRecords rest acc := by
  apply readRecords_skip
  intro l hl
  unfold blockTag at hl
  split at hl
  · cases hl
  · rw [List.mem_singleton.mp hl]
    exact ⟨by decide, by decide, by decide⟩

theorem declOfLine_field (field : String) :
    declOfLine ("  " ++ field ++ ";") = some (field ++ ";") := by
  unfold declOfLine
  have hd : ("  " ++ field ++ ";").data = ' ' :: ' ' :: (field ++ ";").data := by
    simp [String.data_append]
  rw [hd]
  simp only [List.take_succ_cons, List.take_zero, List.drop_succ_cons, List.drop_zero,
    if_true]

theorem declOfLine_of_head (l : String) (h : l.data.head? ≠ some ' ') :
    declOfLine l = none := by
  unfold declOfLine
  rw [if_neg]
  intro h2
  apply h
  cases hl : l.data with
  | nil => simp [hl] at h2
  | cons c cs =>
    rw [hl] at h2
    cases cs <;> simp_all

theorem ne_structOpen_of_head (l : String) (h : l.data.head? ≠ some 't') :
    l ≠ structOpen := by
  rintro rfl
  exact h rfl

/-- Reading the field lines of a record adds one declaration per field: the field string
with the semicolon of the template line. -/
theorem readRecords_fields (env : Env) (fields rest acc : List String) :
    readRecords (forLoop env fields (fun field => ["  " ++ field ++ ";"]) ++ rest) acc
      = readRecords rest (acc ++ fields.map (fun field => field ++ ";")) := by
  unfold forLoop
  induction fields generalizing acc with
  | nil =>
    simp only [List.flatMap_nil, List.nil_append, List.map_nil, List.append_nil]
    exact readRecords_blockTag env rest acc
  | cons f fs ih =>
    have hline : ∀ ls : List String, readRecords (("  " ++ f ++ ";") :: ls) acc
        = readRecords ls (acc ++ [f ++ ";"]) := by
      intro ls
      have htype : typeOfLine ("  " ++ f ++ ";") = none :=
        between_of_head _ _ _ _ (by rw [head_field]; decide)
      rw [readRecords, if_neg (ne_structOpen_of_head _ (by rw [head_field]; decide)),
        htype, declOfLine_field]
    rw [List.flatMap_cons, List.append_assoc, List.append_assoc, List.append_assoc,
      readRecords_blockTag, List.singleton_append, hline, ← List.append_assoc, ih,
      List.map_cons, List.append_assoc, List.singleton_append]

/-- Reading one rendered struct block yields one record and leaves no pending fields. -/
theorem readRecords_structBlock (env : Env) (st : Struct) (rest acc : List String) :
    readRecords (structBlock env st ++ rest) acc
      = emittedRecord st :: readRecords rest [] := by
  unfold structBlock
  have hopen : ∀ ls : List String, readRecords ("typedef struct \x7b" :: ls) acc
      = readRecords ls [] := by
    intro ls
    rw [readRecords, if_pos (show "typedef struct \x7b" = structOpen from rfl)]
  have hclose : ∀ (ls a : List String), readRecords (("\x7d " ++ st.name ++ ";") :: ls) a
      = ⟨st.name, a⟩ :: readRecords ls [] := by
    intro ls a
    rw [readRecords, if_neg (ne_structOpen_of_head _ (by rw [head_close]; decide)),
      typeOfLine_close]
  rw [List.append_assoc, List.append_assoc, List.singleton_append, hopen,
    readRecords_fields, List.nil_append, List.cons_append, hclose, List.cons_append,
    readRecords_inert "" _ [] (by decide) (by decide) (by decide), List.nil_append]
  rfl

theorem readRecords_structs (env : Env) (structs : List Struct) (rest : List String) :
    readRecords (forLoop env structs (structBlock env) ++ rest) []
      = structs.map emittedRecord ++ readRecords rest [] := by
  unfold forLoop
  induction structs with
  | nil =>
    simp only [List.flatMap_nil, List.nil_append, List.map_nil]
    exact readRecords_blockTag env rest []
  | cons st sts ih =>
    rw [List.flatMap_cons, List.append_assoc, List.append_assoc, List.append_assoc,
      readRecords_blockTag, readRecords_structBlock, ← List.append_assoc, ih]
    rfl

/-- The records read back from the rendered header: one per struct, in schema order,
under the struct's name, with every field string followed by a semicolon. -/
theorem records_render (env : Env) (s : Schema) :
    records (render env s) = s.messages.structs.map emittedRecord := by
  unfold records
  rw [recordSection_render]
  have h := readRecords_structs env s.messages.structs []
  rw [List.append_nil] at h
  rw [readRecords_skip _ _ [], h]
  · simp [readRecords]
  · intro l hl
    have hchar : ∀ (l : String) (c : Char), l.data.head? = some c → c ≠ 't' → c ≠ '\x7d' →
        c ≠ ' ' → l ≠ structOpen ∧ typeOfLine l = none ∧ declOfLine l = none :=
      fun l c h h1 h2 h3 =>
        ⟨ne_structOpen_of_head l (by rw [h]; simpa using h1),
          between_of_head _ _ _ l (by rw [h]; simpa using h2),
          declOfLine_of_head l (by rw [h]; simpa using h3)⟩
    simp only [List.mem_append] at hl
    rcases hl with (hl | hl) | hl
    · simp only [List.mem_cons, List.mem_singleton, List.not_mem_nil, or_false] at hl
      rcases hl with hl | hl | hl | hl <;>
        (subst hl; exact ⟨by decide, by decide, by decide⟩)
    · rcases mem_forLoop env _ _ l hl with hl | ⟨hdr, -, hl⟩
      · subst hl; exact ⟨by decide, by decide, by decide⟩
      · rw [List.mem_singleton.mp hl]
        exact hchar _ '#' (head_include hdr) (by decide) (by decide) (by decide)
    · simp only [List.mem_cons, List.mem_singleton, List.not_mem_nil, or_false] at hl
      rcases hl with hl | hl | hl | hl <;>
        (subst hl; exact ⟨by decide, by decide, by decide⟩)

/-- C12 as stated fails: for the field string `int32_t x;` the rendered field line is
`  int32_t x;;`, so the emitted declaration is `int32_t x;;`, not the string given. -/
theorem C12_counterexample :
    generate defaultEnv fooSchema = Except.ok (render defaultEnv fooSchema) ∧
      recordSection (render defaultEnv fooSchema) =
        ["#pragma once", "", "// Autogenerated - do not modify", "", "",
          "#include <stdint.h>", "", "typedef uint32_t ipc_port_t;", "", "",
          "typedef struct \x7b", "", "  int32_t x;;", "", "\x7d FooMsg;", "", ""] ∧
      records (render defaultEnv fooSchema) = [⟨"FooMsg", ["int32_t x;;"]⟩] ∧
      records (render defaultEnv fooSchema) ≠ fooSchema.messages.structs :=
  ⟨rfl, by decide, by decide, by decide⟩

/-- C12, amended: for every schema `generate` emits one record type per struct of
`messages.structs`, in input order; the type name of each record is the struct's name
verbatim, and its field declarations are the struct's field strings in order, each
followed by the semicolon the template appends (the field string `int32_t x;` is
emitted as `int32_t x;;`, the field string `int32_t x` as `int32_t x;`). -/
theorem C12_records_follow_structs (env : Env) (s : Schema) :
    ∃ out, generate env s = Except.ok out ∧
      records out = s.messages.structs.map
        (fun st => ⟨st.name, st.fields.map (fun field => field ++ ";")⟩) ∧
      (records out).map Struct.name = s.messages.structs.map Struct.name ∧
      structTypeNames out = s.messages.structs.map Struct.name := by
  refine ⟨render env s, rfl, records_render env s, ?_, structTypeNames_render env s⟩
  rw [records_render, List.map_map]
  rfl

/-! ## The proto expression as the text after the first underscore -/

theorem splitChars_ne_nil (sep : Char) (l : List Char) : splitChars sep l ≠ [] := by
  cases l with
  | nil => simp [splitChars]
  | cons c cs =>
    unfold splitChars
    split
    · simp
    · split <;> simp

theorem join_cons_char (sep : String) (c : Char) (t : List Char) (ts : List String) :
    join sep (String.mk (c :: t) :: ts)
      = String.mk (c :: (join sep (String.mk t :: ts)).data) := by
  cases ts with
  | nil => rfl
  | cons u us =>
    apply String.ext
    show (String.mk (c :: t) ++ sep ++ join sep (u :: us)).data
      = c :: (String.mk t ++ sep ++ join sep (u :: us)).data
    simp [String.data_append]

/-- Joining what was split gives the string back. -/
theorem join_splitChars (l : List Char) :
    join "_" ((splitChars '_' l).map String.mk) = String.mk l := by
  induction l with
  | nil => rfl
  | cons c cs ih =>
    unfold splitChars
    split
    · rename_i hc
      subst hc
      cases hsp : splitChars '_' cs with
      | nil => exact absurd hsp (splitChars_ne_nil '_' cs)
      | cons t ts =>
        rw [hsp] at ih
        rw [List.map_cons, List.map_cons]
        show String.mk [] ++ "_" ++ join "_" (String.mk t :: ts.map String.mk) = _
        rw [← List.map_cons, ih]
        rfl
    · cases hsp : splitChars '_' cs with
      | nil => exact absurd hsp (splitChars_ne_nil '_' cs)
      | cons t ts =>
        rw [hsp] at ih
        simp only [List.map_cons] at ih ⊢
        rw [join_cons_char, ih]

/-- Joining the pieces after the first gives the text after the first underscore. -/
theorem join_drop_splitChars (l : List Char) :
    join "_" (((splitChars '_' l).map String.mk).drop 1) = String.mk (afterFirst '_' l) := by
  induction l with
  | nil => rfl
  | cons c cs ih =>
    unfold splitChars
    split
    · rename_i hc
      subst hc
      rw [List.map_cons, List.drop_succ_cons, List.drop_zero, join_splitChars]
      simp [afterFirst, List.dropWhile]
    · rename_i hc
      have haf : afterFirst '_' (c :: cs) = afterFirst '_' cs := by
        simp [afterFirst, List.dropWhile, hc]
      rw [haf, ← ih]
      cases hsp : splitChars '_' cs with
      | nil => exact absurd hsp (splitChars_ne_nil '_' cs)
      | cons t ts => rfl

theorem protoTail_eq_afterFirst (env : Env) (p : Proto) :
    protoTail env p = afterFirstUnderscore (upper env p.name) :=
  join_drop_splitChars (upper env p.name).data

theorem afterFirst_append (sep : Char) (u rest : List Char) (h : sep ∉ u) :
    afterFirst sep (u ++ sep :: rest) = rest := by
  unfold afterFirst
  rw [dropWhile_stop _ u rest sep (fun x hx => by
    simp only [decide_eq_true_eq]
    rintro rfl
    exact h hx) (by simp)]
  rfl

theorem afterFirstUnderscore_append (u rest : String) (h : '_' ∉ u.data) :
    afterFirstUnderscore (u ++ "_" ++ rest) = rest := by
  unfold afterFirstUnderscore
  apply String.ext
  have hd : (u ++ "_" ++ rest).data = u.data ++ '_' :: rest.data := by
    rw [String.data_append, String.data_append, List.append_assoc]
    rfl
  show afterFirst '_' (u ++ "_" ++ rest).data = rest.data
  rw [hd, afterFirst_append '_' _ _ h]

/-- The proto tag of a name `a_r` whose first token `a` has no underscore. -/
theorem protoTag_first_token (env : Env) (p : Proto) (a r : String) (ha : '_' ∉ a.data)
    (hname : p.name = a ++ "_" ++ r) : protoTag env p = "IPC_PROTO_" ++ upper env r := by
  rw [protoTag, protoTail_eq_afterFirst, hname, upper_append, upper_append, upper_underscore,
    afterFirstUnderscore_append _ _ (upper_free env a ha)]

/-- C14: the proto tag depends only on the text after the first underscore of the
upper-cased proto name.  The tag emitted for a proto is `IPC_PROTO_` followed by
everything after the first underscore of `upper(name)`, later underscores kept; for a
name without underscore it is exactly `IPC_PROTO_`; and two names that differ only in
their first token yield the same tag. -/
theorem C14_proto_tag_after_first_underscore (env : Env) (s : Schema) (i : Nat) (p : Proto)
    (hi : s.messages.protos[i]? = some p) :
    ∃ out tag, generate env s = Except.ok out ∧
      (enumMembers out)[s.messages.structs.length + i]? = some tag ∧
      tag = "IPC_PROTO_" ++ afterFirstUnderscore (upper env p.name) ∧
      (∀ u rest : String, '_' ∉ u.data → upper env p.name = u ++ "_" ++ rest →
        tag = "IPC_PROTO_" ++ rest) ∧
      ('_' ∉ p.name.data → tag = "IPC_PROTO_") ∧
      (∀ (q : Proto) (a b r : String), '_' ∉ a.data → '_' ∉ b.data →
        p.name = a ++ "_" ++ r → q.name = b ++ "_" ++ r → protoTag env q = tag) := by
  refine ⟨render env s, protoTag env p, rfl, enumMembers_proto env s i p hi, ?_, ?_, ?_, ?_⟩
  · rw [protoTag, protoTail_eq_afterFirst]
  · intro u rest hu hup
    rw [protoTag, protoTail_eq_afterFirst, hup, afterFirstUnderscore_append u rest hu]
  · intro hfree
    have ht := protoTail_tokens env p p.name []
      (fun t ht => by rw [List.mem_singleton.mp ht]; exact hfree) rfl
    rw [protoTag, ht]
    rfl
  · intro q a b r ha hb hp hq
    rw [protoTag_first_token env p a r ha hp, protoTag_first_token env q b r hb hq]

/-- C14 on the proto `foo_bar_baz`: the member after the struct tag is
`IPC_PROTO_BAR_BAZ`, which is also the tag of `xyz_bar_baz`. -/
theorem C14_proto_tag_after_first_underscore_witness :
    protoSchema.messages.protos[0]? = some ⟨"foo_bar_baz"⟩ ∧
      ∃ out, generate defaultEnv protoSchema = Except.ok out ∧
        (enumMembers out)[1]? = some "IPC_PROTO_BAR_BAZ" ∧
        protoTag defaultEnv ⟨"xyz_bar_baz"⟩ = "IPC_PROTO_BAR_BAZ" := by
  refine ⟨by decide, ?_⟩
  obtain ⟨out, tag, hgen, hmem, htag, -, -, hsame⟩ :=
    C14_proto_tag_after_first_underscore defaultEnv protoSchema 0 ⟨"foo_bar_baz"⟩ (by decide)
  have ht : tag = "IPC_PROTO_BAR_BAZ" := by
    rw [htag]
    decide
  have hq := hsame ⟨"xyz_bar_baz"⟩ "foo" "xyz" "bar_baz" (by decide) (by decide)
    (by decide) (by decide)
  exact ⟨out, hgen, ht ▸ hmem, hq.trans ht⟩

/-! ## Truncation of struct tags -/

/-- The slice `[:-2]` of a string that ends in two characters is what stands before
them. -/
theorem dropLast2_append (w x : String) (hx : x.length = 2) : dropLast2 (w ++ x) = w := by
  unfold dropLast2
  apply String.ext
  have hx2 : x.data.length = 2 := hx
  show ((w ++ x).data.take ((w ++ x).data.length - 2)) = w.data
  rw [String.data_append, List.length_append, hx2, Nat.add_sub_cancel, List.take_left]

/-- C15 as stated fails: the two-character struct name `ßß` upper-cases to `SSSS`, so
its tag is `IPC_SS`, not the bare `IPC_`. -/
theorem C15_counterexample :
    "ßß".length ≤ 2 ∧
      upper sharpEnv "ßß" = "SSSS" ∧
      generate sharpEnv sharpSchema = Except.ok (render sharpEnv sharpSchema) ∧
      enumMembers (render sharpEnv sharpSchema) = ["IPC_SS", "IPC_SVC_END"] ∧
      structTag sharpEnv ⟨"ßß", []⟩ ≠ "IPC_" :=
  ⟨by decide, by decide, rfl, by decide, by decide⟩

/-- C15, amended: the struct tag derivation is total and truncating.  Generation produces
output for every schema; for every struct name whose upper-cased form has at most 2
characters (every ASCII name of at most 2 characters, the empty name included) the
emitted tag is exactly the bare prefix `IPC_`, so any two such structs yield the same
tag; and for any two struct names whose upper-cased forms differ only in their last two
characters the emitted tags are equal. -/
theorem C15_struct_tag_truncates (env : Env) (s : Schema) (i : Nat) (st : Struct)
    (hi : s.messages.structs[i]? = some st) :
    ∃ out tag, generate env s = Except.ok out ∧ (enumMembers out)[i]? = some tag ∧
      ((upper env st.name).length ≤ 2 → tag = "IPC_") ∧
      (st.name.length ≤ 2 → (∀ c ∈ st.name.data, c.toNat < 128) → tag = "IPC_") ∧
      (∀ st2 : Struct, (upper env st.name).length ≤ 2 → (upper env st2.name).length ≤ 2 →
        structTag env st2 = tag) ∧
      (∀ (st2 : Struct) (w x y : String), x.length = 2 → y.length = 2 →
        upper env st.name = w ++ x → upper env st2.name = w ++ y →
        structTag env st2 = tag ∧ tag = "IPC_" ++ w) := by
  have hbare : ∀ t : Struct, (upper env t.name).length ≤ 2 → structTag env t = "IPC_" := by
    intro t ht
    rw [structTag, dropLast2_short _ ht]
    rfl
  refine ⟨render env s, structTag env st, rfl, enumMembers_struct env s i st hi, hbare st,
    ?_, ?_, ?_⟩
  · intro hlen hascii
    apply hbare
    rw [length_upper_ascii env st.name hascii]
    exact hlen
  · intro st2 h1 h2
    rw [hbare st h1, hbare st2 h2]
  · intro st2 w x y hx hy h1 h2
    have ht : structTag env st = "IPC_" ++ w := by
      rw [structTag, h1, dropLast2_append w x hx]
    have ht2 : structTag env st2 = "IPC_" ++ w := by
      rw [structTag, h2, dropLast2_append w y hy]
    exact ⟨ht2.trans ht.symm, ht⟩

/-- The amended C15 on the struct `Ab`: its member is the bare `IPC_`, as is the tag of a
struct with the empty name, and `FooAa` and `FooBb` share the tag `IPC_FOO`. -/
theorem C15_struct_tag_truncates_witness :
    bareSchema.messages.structs[0]? = some ⟨"Ab", []⟩ ∧
      (∃ out, generate defaultEnv bareSchema = Except.ok out ∧
        (enumMembers out)[0]? = some "IPC_" ∧
        structTag defaultEnv ⟨"", []⟩ = "IPC_") ∧
      twinSchema.messages.structs[0]? = some ⟨"FooAa", []⟩ ∧
      (∃ out, generate defaultEnv twinSchema = Except.ok out ∧
        (enumMembers out)[0]? = some "IPC_FOO" ∧
        structTag defaultEnv ⟨"FooBb", []⟩ = "IPC_FOO") := by
  refine ⟨by decide, ?_, by decide, ?_⟩
  · obtain ⟨out, tag, hgen, hmem, hbare, -, hsame, -⟩ :=
      C15_struct_tag_truncates defaultEnv bareSchema 0 ⟨"Ab", []⟩ (by decide)
    have ht : tag = "IPC_" := hbare (by decide)
    exact ⟨out, hgen, ht ▸ hmem, (hsame ⟨"", []⟩ (by decide) (by decide)).trans ht⟩
  · obtain ⟨out, tag, hgen, hmem, -, -, -, hlast⟩ :=
      C15_struct_tag_truncates defaultEnv twinSchema 0 ⟨"FooAa", []⟩ (by decide)
    obtain ⟨h2, ht⟩ := hlast ⟨"FooBb", []⟩ "FOO" "AA" "BB" (by decide) (by decide)
      (by decide) (by decide)
    have ht3 : tag = "IPC_FOO" := ht.trans (by decide)
    exact ⟨out, hgen, ht3 ▸ hmem, h2.trans ht3⟩

/-! ## Distinct tags under the naming convention -/

theorem append_right_injective (b : String) :
    Function.Injective (fun t : String => t ++ b) := by
  intro x y h
  have hd : (x ++ b).data = (y ++ b).data := congrArg String.data h
  rw [String.data_append, String.data_append] at hd
  exact String.ext (List.append_cancel_right hd)

/-- A list of characters with a separator in it is its first token, the separator, and
what follows the separator. -/
theorem takeWhile_sep_afterFirst (sep : Char) (l : List Char) (h : sep ∈ l) :
    l = l.takeWhile (fun c => decide (c ≠ sep)) ++ sep :: afterFirst sep l := by
  induction l with
  | nil => cases h
  | cons c cs ih =>
    by_cases hc : c = sep
    · subst hc
      simp [afterFirst, List.takeWhile, List.dropWhile]
    · have hcs : sep ∈ cs := by
        rcases List.mem_cons.mp h with h1 | h1
        · exact absurd h1.symm hc
        · exact h1
      have haf : afterFirst sep (c :: cs) = afterFirst sep cs := by
        simp [afterFirst, List.dropWhile, hc]
      have htw : (c :: cs).takeWhile (fun c => decide (c ≠ sep))
          = c :: cs.takeWhile (fun c => decide (c ≠ sep)) := by
        simp [List.takeWhile, hc]
      rw [haf, htw, List.cons_append, ← ih hcs]

theorem firstToken_free (s : String) : '_' ∉ (firstToken s).data := by
  intro h
  have h2 : '_' ∈ s.data.takeWhile (fun c => decide (c ≠ '_')) := h
  have h3 := List.mem_takeWhile_imp h2
  simp at h3

/-- A proto name with an underscore is its first token, an underscore, and the rest. -/
theorem name_eq_firstToken_rest (name : String) (h : '_' ∈ name.data) :
    name = firstToken name ++ "_" ++ afterFirstUnderscore name := by
  apply String.ext
  have hd : (firstToken name ++ "_" ++ afterFirstUnderscore name).data
      = (firstToken name).data ++ '_' :: (afterFirstUnderscore name).data := by
    rw [String.data_append, String.data_append, List.append_assoc]
    rfl
  rw [hd]
  exact takeWhile_sep_afterFirst '_' name.data h

/-- Under a common suffix of upper-cased length two, the slice removes exactly the
upper-cased suffix. -/
theorem upper_eq_stem_suffix (env : Env) (name suf : String)
    (hsuf : (upper env suf).length = 2) (hlast : lastTwo name = suf) :
    upper env name = dropLast2 (upper env name) ++ upper env suf := by
  obtain ⟨w, hw⟩ : ∃ w, name = w ++ suf :=
    ⟨withoutLastTwo name, by
      have h := withoutLastTwo_append_lastTwo name
      rw [hlast] at h
      exact h⟩
  rw [hw, upper_append, dropLast2_append _ _ hsuf]

/-- Under a common first token, the upper-cased proto name is the upper-cased token, an
underscore and the proto expression. -/
theorem upper_eq_token_tail (env : Env) (p : Proto) (tok : String)
    (hus : '_' ∈ p.name.data) (htok : firstToken p.name = tok) :
    upper env p.name = (upper env tok ++ "_") ++ protoTail env p := by
  have hfree : '_' ∉ tok.data := htok ▸ firstToken_free p.name
  obtain ⟨r, hr⟩ : ∃ r, p.name = tok ++ "_" ++ r :=
    ⟨afterFirstUnderscore p.name, by
      have h := name_eq_firstToken_rest p.name hus
      rw [htok] at h
      exact h⟩
  rw [protoTail_eq_afterFirst, hr, upper_append, upper_append, upper_underscore,
    afterFirstUnderscore_append _ _ (upper_free env tok hfree)]

/-- The naming convention makes the tag stems pairwise distinct. -/
theorem tagStems_nodup_of_convention (env : Env) (s : Schema) (suf tok : String)
    (hc : namingConvention env s suf tok) : (tagStems env s).Nodup := by
  obtain ⟨hsuf, hlast, hfirst, hsn, hpn, hout⟩ := hc
  have hstruct : (s.messages.structs.map (fun st => dropLast2 (upper env st.name))).Nodup := by
    have he : s.messages.structs.map (fun st => upper env st.name)
        = (s.messages.structs.map (fun st => dropLast2 (upper env st.name))).map
            (fun t => t ++ upper env suf) := by
      rw [List.map_map]
      exact List.map_congr_left
        (fun st hst => upper_eq_stem_suffix env st.name suf hsuf (hlast st hst))
    rw [he] at hsn
    exact List.Nodup.of_map _ hsn
  have htail : (s.messages.protos.map (protoTail env)).Nodup := by
    have he : s.messages.protos.map (fun p => upper env p.name)
        = (s.messages.protos.map (protoTail env)).map
            (fun t => (upper env tok ++ "_") ++ t) := by
      rw [List.map_map]
      exact List.map_congr_left
        (fun p hp => upper_eq_token_tail env p tok (hfirst p hp).1 (hfirst p hp).2)
    rw [he] at hpn
    exact List.Nodup.of_map _ hpn
  have hproto : (s.messages.protos.map (fun p => "PROTO_" ++ protoTail env p)).Nodup := by
    have he : s.messages.protos.map (fun p => "PROTO_" ++ protoTail env p)
        = (s.messages.protos.map (protoTail env)).map (fun t => "PROTO_" ++ t) := by
      rw [List.map_map]; rfl
    rw [he]
    exact htail.map (append_left_injective "PROTO_")
  unfold tagStems
  apply List.Nodup.append hstruct hproto
  intro x hx hx2
  obtain ⟨st, hst, rfl⟩ := List.mem_map.mp hx
  obtain ⟨p, -, hp⟩ := List.mem_map.mp hx2
  apply hout st hst
  rw [upper_eq_stem_suffix env st.name suf hsuf (hlast st hst), ← hp]
  simp [String.data_append]

/-- C3, amended: for every schema that satisfies the uniqueness invariant and follows the
naming convention the tag rules presuppose (all struct names end in one common suffix
that is two characters long once upper-cased, all proto names start with one common
first token followed by an underscore, struct names and proto names stay pairwise
distinct after upper-casing, and no upper-cased struct name starts with `PROTO_`), the
enum tags emitted by `generate` are pairwise distinct and the emitted struct type names
are pairwise distinct. -/
theorem C3_distinct_tags_under_convention (env : Env) (s : Schema) (suf tok : String)
    (hu : uniqueNames env s) (hc : namingConvention env s suf tok) :
    ∃ out, generate env s = Except.ok out ∧
      (enumMembers out).Nodup ∧ (structTypeNames out).Nodup :=
  ⟨render env s, rfl,
    members_nodup_of_stems_nodup env s hu (tagStems_nodup_of_convention env s suf tok hc)⟩

/-- The amended C3 on two structs named `auth_cmd_t`, `auth_rsp_t` and two protos named
`fwpb_wallet_cmd`, `fwpb_wallet_rsp`: the five emitted tags are pairwise distinct. -/
theorem C3_distinct_tags_under_convention_witness :
    uniqueNames defaultEnv conventionSchema ∧
      namingConvention defaultEnv conventionSchema "_t" "fwpb" ∧
      enumMembers (render defaultEnv conventionSchema) =
        ["IPC_AUTH_CMD", "IPC_AUTH_RSP", "IPC_PROTO_WALLET_CMD", "IPC_PROTO_WALLET_RSP",
          "IPC_AUTH_END"] ∧
      ∃ out, generate defaultEnv conventionSchema = Except.ok out ∧
        (enumMembers out).Nodup ∧ (structTypeNames out).Nodup :=
  ⟨by decide, by decide, by decide,
    C3_distinct_tags_under_convention defaultEnv conventionSchema "_t" "fwpb" (by decide)
      (by decide)⟩

end IpcMessages
